import Mathlib

/-
Verification of the inventory system module (src/inventory_system.py).

The module keeps a process-wide dictionary `stock_data` mapping item names
(strings) to quantities, with add/remove/query/report operations and JSON
load/save helpers.  We embed the module shallowly:

* `Py` models the Python values that can flow through the module: `None`,
  booleans, integers, strings, lists and string-keyed dictionaries (exactly
  the values `json.load` can produce, floats excluded — no operation or
  claim involves floats).
* The dictionary `stock_data` is an insertion-ordered association list
  `List (String × Py)`; `dictSet` updates the first matching key in place
  (Python dicts keep the original position on update) and appends fresh
  keys at the end, `dictDel` removes the key, matching CPython semantics
  for dictionaries with distinct keys (which is every dictionary the
  program builds).
* Calls into the `logging` module become an explicit list of `Event`s
  (`logging.exception` logs at ERROR level and is modelled as `.error`).
* An uncaught exception (a `TypeError` from `+`/`-`/`<` on a non-numeric
  stored value, possible only after a `load` of ill-typed data, see the
  spec's §9 gap) is modelled by a `raised` flag; state fields then hold the
  values at the raise point (the source raises before any assignment).
* The file system for `load_data`/`save_data` is a `FileState`: the file is
  missing, present but not decodable as JSON, or present with a JSON text
  whose parse is a given `Py` value.  `json.dump` of any `Py` value built
  from distinct-key dictionaries produces a text that parses back to the
  same value, so a successful save yields `FileState.content` of the dumped
  dictionary.
-/

namespace InventorySystem

/-- Python values reachable in this module: `None`, `bool`, `int`, `str`,
`list`, and string-keyed `dict` (the values `json.load` yields, floats
excluded as no code path or claim involves them). -/
inductive Py where
  | none
  | bool (b : Bool)
  | int (n : Int)
  | str (s : String)
  | list (xs : List Py)
  | dict (kvs : List (String × Py))

/-- `isinstance(x, str)`. -/
def pyIsStr : Py → Bool
  | .str _ => true
  | _ => false

/-- `isinstance(x, int)`: in Python `bool` is a subclass of `int`, so
`True` and `False` pass this check. -/
def pyIsInt : Py → Bool
  | .int _ => true
  | .bool _ => true
  | _ => false

/-- Numeric value of an int-like Python value (`True` is 1, `False` is 0).
Only meaningful when `pyIsInt` holds; other values map to 0 and are never
reached on validated paths. -/
def pyToInt : Py → Int
  | .int n => n
  | .bool b => if b then 1 else 0
  | _ => 0

/-- Python `str()` of a value, as used in the f-string of `add_item`.
Scalar cases are exact; containers get a placeholder (no validated code
path ever formats a container: `qty` is int-like and `item` is a string
once formatting is reached). -/
def pyStr : Py → String
  | .none => "None"
  | .bool true => "True"
  | .bool false => "False"
  | .int n => toString n
  | .str s => s
  | .list _ => "<list>"
  | .dict _ => "<dict>"

/-- Python `stored + qty` where `qty` is an int: defined for int-like
`stored` (bool promotes to 0/1), a `TypeError` (`Option.none`) otherwise. -/
def pyAddInt : Py → Int → Option Int
  | .int n, q => some (n + q)
  | .bool b, q => some ((if b then 1 else 0) + q)
  | _, _ => Option.none

/-- Python `stored - qty` where `qty` is an int: defined for int-like
`stored`, a `TypeError` (`Option.none`) otherwise. -/
def pySubInt : Py → Int → Option Int
  | .int n, q => some (n - q)
  | .bool b, q => some ((if b then 1 else 0) - q)
  | _, _ => Option.none

/-- Python `stored < threshold` with an int threshold: defined for
int-like `stored`, a `TypeError` (`Option.none`) otherwise. -/
def pyLtInt : Py → Int → Option Bool
  | .int n, t => some (decide (n < t))
  | .bool b, t => some (decide ((if b then (1 : Int) else 0) < t))
  | _, _ => Option.none

/-- The in-memory dictionary `stock_data`: an insertion-ordered list of
key/value pairs with (by construction) distinct keys. -/
abbrev Stock := List (String × Py)

/-- `d.get(k, dflt)`: value of the first entry with key `k`, else `dflt`. -/
def dictGetD (d : Stock) (k : String) (dflt : Py) : Py :=
  match d with
  | [] => dflt
  | (k', v) :: rest => if k' = k then v else dictGetD rest k dflt

/-- `d[k]` as an `Option` (`Option.none` models `KeyError`). -/
def dictGetOpt (d : Stock) (k : String) : Option Py :=
  match d with
  | [] => Option.none
  | (k', v) :: rest => if k' = k then some v else dictGetOpt rest k

/-- `d[k] = v`: replace the value of the first entry with key `k` keeping
its position, or append a new entry at the end (CPython dict semantics). -/
def dictSet (d : Stock) (k : String) (v : Py) : Stock :=
  match d with
  | [] => [(k, v)]
  | (k', v') :: rest => if k' = k then (k', v) :: rest else (k', v') :: dictSet rest k v

/-- `del d[k]`: drop the entry with key `k` (keys are distinct, so
filtering removes exactly that entry). -/
def dictDel (d : Stock) (k : String) : Stock :=
  d.filter (fun kv => kv.1 ≠ k)

/-- Key list of the dictionary, in iteration (insertion) order. -/
def dictKeys (d : Stock) : List String :=
  d.map Prod.fst

/-- The keys are pairwise distinct — true of every dictionary CPython
builds, and of every `Stock` the embedded operations produce. -/
def nodupKeys (d : Stock) : Prop :=
  (d.map Prod.fst).Nodup

/-- `dict.clear()` followed by `dict.update(data)`: rebuild from the pairs
of `data` in order (on duplicate keys the last value wins at the first
position, as in CPython — `json.load` output never has duplicates). -/
def dictFromPairs (kvs : List (String × Py)) : Stock :=
  kvs.foldl (fun d kv => dictSet d kv.1 kv.2) []

/-- A call into the `logging` module, tagged with its severity
(`logging.exception` logs at ERROR level and is modelled as `.error`). -/
inductive Event where
  | error (msg : String)
  | warning (msg : String)
  | info (msg : String)

/-- Result of `add_item`: the dictionary, the caller-supplied `logs` list,
the logging calls made, and whether an uncaught exception escaped. -/
structure AddResult where
  stock : Stock
  logs : List String
  events : List Event
  raised : Bool

/-- `add_item(item, qty, logs)` (src/inventory_system.py lines 15-46).
`now` stands for `datetime.now()` in the appended log message.  Rejects a
non-`str` `item` or a non-`int`/negative `qty` with an error log; an empty
`item` silently no-ops; otherwise `stock_data[item] = stock_data.get(item, 0) + qty`
and a timestamped message is appended to `logs`.  The `+` raises
`TypeError` (uncaught, `raised := true`) on a non-numeric stored value. -/
def add_item (now : String) (item qty : Py) (logs : List String) (stock : Stock) :
    AddResult :=
  if ¬ pyIsStr item then
    ⟨stock, logs, [.error "add_item: item must be a str. Skipping."], false⟩
  else if ¬ pyIsInt qty then
    ⟨stock, logs, [.error "add_item: qty must be a non-negative int. Skipping."], false⟩
  else if pyToInt qty < 0 then
    ⟨stock, logs, [.error "add_item: qty must be a non-negative int. Skipping."], false⟩
  else
    match item with
    | .str s =>
      if s.isEmpty then ⟨stock, logs, [], false⟩
      else
        match pyAddInt (dictGetD stock s (.int 0)) (pyToInt qty) with
        | Option.none => ⟨stock, logs, [], true⟩
        | some n =>
          ⟨dictSet stock s (.int n),
           logs ++ [now ++ ": Added " ++ pyStr qty ++ " of " ++ s],
           [], false⟩
    | _ => ⟨stock, logs, [], false⟩

/-- Result of `remove_item`, `load_data` and other operations that touch
only the dictionary and the log: the dictionary, the logging calls made,
and whether an uncaught exception escaped. -/
structure RemoveResult where
  stock : Stock
  events : List Event
  raised : Bool

/-- `remove_item(item, qty)` (src/inventory_system.py lines 49-73).
Rejects a non-`str` `item` or a non-`int`/non-positive `qty` with an error
log.  Then `stock_data[item] -= qty` inside a `try`: a missing key raises
`KeyError`, caught and logged as a warning; on success the re-read
`stock_data[item]` is the value just stored, and if it is ≤ 0 the entry is
deleted.  The `-` raises `TypeError` (uncaught) on a non-numeric stored
value. -/
def remove_item (item qty : Py) (stock : Stock) : RemoveResult :=
  if ¬ pyIsStr item then
    ⟨stock, [.error "remove_item: item must be a str. Skipping."], false⟩
  else if ¬ pyIsInt qty then
    ⟨stock, [.error "remove_item: qty must be a positive int. Skipping."], false⟩
  else if pyToInt qty ≤ 0 then
    ⟨stock, [.error "remove_item: qty must be a positive int. Skipping."], false⟩
  else
    match item with
    | .str s =>
      match dictGetOpt stock s with
      | Option.none => ⟨stock, [.warning "remove_item: item not found in stock."], false⟩
      | some v =>
        match pySubInt v (pyToInt qty) with
        | Option.none => ⟨stock, [], true⟩
        | some n =>
          if n ≤ 0 then ⟨dictDel (dictSet stock s (.int n)) s, [], false⟩
          else ⟨dictSet stock s (.int n), [], false⟩
    | _ => ⟨stock, [], false⟩

/-- `get_qty(item)` (src/inventory_system.py lines 76-81): the stored value
(`0` if missing), plus the logging calls made (an error and `0` for a
non-`str` `item`). -/
def get_qty (item : Py) (stock : Stock) : Py × List Event :=
  if ¬ pyIsStr item then
    (.int 0, [.error "get_qty: item must be a str."])
  else
    match item with
    | .str s => (dictGetD stock s (.int 0), [])
    | _ => (.int 0, [])

/-- The loop body of `check_low_items`: walk the key list `ks`, appending
each key whose looked-up value is `< threshold`.  A `TypeError` from the
comparison (non-numeric stored value) makes the whole call raise
(`Option.none`). -/
def checkLowAux (full : Stock) (threshold : Int) : List String → Option (List String)
  | [] => some []
  | k :: ks =>
    match pyLtInt (dictGetD full k (.int 0)) threshold with
    | Option.none => Option.none
    | some b =>
      match checkLowAux full threshold ks with
      | Option.none => Option.none
      | some rest => some (if b then k :: rest else rest)

/-- `check_low_items(threshold)` (src/inventory_system.py lines 130-136):
iterate the dictionary keys in order, collecting those whose
`stock_data.get(i, 0)` is strictly below `threshold`.  Pure: it reads the
dictionary and builds a fresh list, mutating nothing. -/
def check_low_items (threshold : Int) (stock : Stock) : Option (List String) :=
  checkLowAux stock threshold (dictKeys stock)

/-- `print_data()` (src/inventory_system.py lines 123-127) logs one line
per item at INFO level, `"%s -> %s" % (i, stock_data.get(i))`, in iteration
order.  The report's payload is this list of (name, value) pairs; the
state is not modified. -/
def print_data (stock : Stock) : List (String × Py) :=
  stock.map (fun kv => (kv.1, dictGetD stock kv.1 .none))

/-- The file at the persistence path: missing, present but not decodable
as JSON, or present with a JSON text that parses to `j`. -/
inductive FileState where
  | missing
  | invalid
  | content (j : Py)

/-- `load_data(file)` (src/inventory_system.py lines 84-108): a missing
file logs a warning and keeps the state; undecodable JSON logs the decode
failure (ERROR level, with traceback) and keeps the state; a decoded
non-dict top level logs an error and keeps the state; a decoded dict
replaces the whole dictionary (`clear` then `update`). -/
def load_data (f : FileState) (stock : Stock) : RemoveResult :=
  match f with
  | .missing => ⟨stock, [.warning "load_data: file not found - starting with empty inventory"], false⟩
  | .invalid => ⟨stock, [.error "load_data: failed to decode JSON"], false⟩
  | .content j =>
    match j with
    | .dict kvs => ⟨dictFromPairs kvs, [], false⟩
    | _ => ⟨stock, [.error "load_data: expected a JSON object"], false⟩

/-- Result of `save_data`: the file afterwards and the logging calls. -/
structure SaveResult where
  file : FileState
  events : List Event

/-- `save_data(file)` (src/inventory_system.py lines 111-120): dump the
dictionary as JSON, overwriting the file; `writeOk` is whether the file
system accepts the write (an `OSError` is logged at ERROR level with
traceback and does not escape).  `json.dump` of a distinct-key dictionary
produces a text whose parse is that dictionary, so a successful save
leaves the file as `content (.dict stock)`; in-memory state is untouched
either way. -/
def save_data (writeOk : Bool) (prev : FileState) (stock : Stock) : SaveResult :=
  if writeOk then ⟨.content (.dict stock), []⟩
  else ⟨prev, [.error "save_data: failed to write"]⟩

/-- Whether the file holds JSON whose top-level value is a dict — the only
shape `load_data` accepts. -/
def topLevelDict : FileState → Bool
  | .content (.dict _) => true
  | _ => false

/-- A sequence of `add_item(s, q)` calls, one per quantity in `qs`, applied
to the dictionary. -/
def addSeq (s : String) (qs : List Int) (stock : Stock) : Stock :=
  qs.foldl (fun st q => (add_item "" (Py.str s) (Py.int q) [] st).stock) stock

/-- One mutation of the in-memory inventory: an `add_item` call (the
timestamp and the caller's log list do not affect the dictionary) or a
`remove_item` call, with arbitrary Python arguments. -/
inductive Op where
  | add (item qty : Py)
  | remove (item qty : Py)

/-- Effect of one operation on the dictionary.  When an uncaught
`TypeError` escapes, the dictionary holds its value at the raise point,
which in both operations is the pre-call value (the source raises before
any assignment). -/
def applyOp (stock : Stock) : Op → Stock
  | .add item qty => (add_item "" item qty [] stock).stock
  | .remove item qty => (remove_item item qty stock).stock

/-- Dictionary reached by a sequence of add/remove calls from the empty
inventory. -/
def runOps (ops : List Op) : Stock :=
  ops.foldl applyOp []

/-- The invariant claimed in the spec (§3): every entry's quantity is an
integer strictly greater than zero. -/
def strictInvariant (stock : Stock) : Prop :=
  ∀ kv ∈ stock, ∃ n : Int, kv.2 = Py.int n ∧ 0 < n

/-- The invariant the code actually maintains under add/remove: every
entry's quantity is a non-negative integer (an add of quantity 0 to an
absent item creates an entry at exactly 0). -/
def nonnegInvariant (stock : Stock) : Prop :=
  ∀ kv ∈ stock, ∃ n : Int, kv.2 = Py.int n ∧ 0 ≤ n

/-! ### Dictionary lemmas -/

theorem dictGetD_set_self (d : Stock) (k : String) (v dflt : Py) :
    dictGetD (dictSet d k v) k dflt = v := by
  induction d with
  | nil => simp [dictSet, dictGetD]
  | cons kv rest ih =>
    obtain ⟨k', v'⟩ := kv
    by_cases h : k' = k <;> simp [dictSet, dictGetD, h, ih]

theorem dictGetD_set_ne (d : Stock) (k k' : String) (v dflt : Py) (h : k ≠ k') :
    dictGetD (dictSet d k v) k' dflt = dictGetD d k' dflt := by
  induction d with
  | nil => simp [dictSet, dictGetD, h]
  | cons kv rest ih =>
    obtain ⟨k₀, v₀⟩ := kv
    by_cases h₀ : k₀ = k
    · subst h₀
      simp [dictSet, dictGetD, h]
    · simp [dictSet, dictGetD, h₀, ih]

theorem dictGetD_del_self (d : Stock) (k : String) (dflt : Py) :
    dictGetD (dictDel d k) k dflt = dflt := by
  induction d with
  | nil => simp [dictDel, dictGetD]
  | cons kv rest ih =>
    obtain ⟨k', v'⟩ := kv
    by_cases h : k' = k
    · subst h
      simpa [dictDel, List.filter] using ih
    · simpa [dictDel, List.filter, h, dictGetD] using ih

theorem not_mem_keys_del (d : Stock) (k : String) :
    k ∉ dictKeys (dictDel d k) := by
  intro hmem
  simp only [dictKeys, dictDel, List.mem_map] at hmem
  obtain ⟨kv, hkv, hfst⟩ := hmem
  rw [List.mem_filter] at hkv
  exact absurd hfst (by simpa using hkv.2)

theorem mem_dictSet (d : Stock) (k : String) (v : Py) (kv : String × Py)
    (h : kv ∈ dictSet d k v) : kv = (k, v) ∨ kv ∈ d := by
  induction d with
  | nil => simpa [dictSet] using h
  | cons kv₀ rest ih =>
    obtain ⟨k₀, v₀⟩ := kv₀
    by_cases h₀ : k₀ = k
    · subst h₀
      rcases (by simpa [dictSet] using h : kv = (k₀, v) ∨ kv ∈ rest) with h₁ | h₁
      · exact Or.inl h₁
      · exact Or.inr (List.mem_cons_of_mem _ h₁)
    · rcases (by simpa [dictSet, h₀] using h : kv = (k₀, v₀) ∨ kv ∈ dictSet rest k v) with h₁ | h₁
      · exact Or.inr (by simp [h₁])
      · rcases ih h₁ with h₂ | h₂
        · exact Or.inl h₂
        · exact Or.inr (List.mem_cons_of_mem _ h₂)

theorem mem_dictDel (d : Stock) (k : String) (kv : String × Py)
    (h : kv ∈ dictDel d k) : kv ∈ d :=
  List.mem_of_mem_filter h

theorem dictGetD_cases (d : Stock) (k : String) (dflt : Py) :
    dictGetD d k dflt = dflt ∨ ∃ kv ∈ d, kv.1 = k ∧ kv.2 = dictGetD d k dflt := by
  induction d with
  | nil => exact Or.inl rfl
  | cons kv₀ rest ih =>
    obtain ⟨k₀, v₀⟩ := kv₀
    by_cases h : k₀ = k
    · subst h
      exact Or.inr ⟨(k₀, v₀), List.mem_cons_self _ _, rfl, by simp [dictGetD]⟩
    · rcases ih with h₁ | ⟨kv, hkv, hfst, hsnd⟩
      · exact Or.inl (by simpa [dictGetD, h] using h₁)
      · exact Or.inr ⟨kv, List.mem_cons_of_mem _ hkv, hfst, by simpa [dictGetD, h] using hsnd⟩

theorem dictGetOpt_eq_some_of_getD (d : Stock) (k : String) (v dflt : Py)
    (hne : dictGetD d k dflt = v) (hv : v ≠ dflt) : dictGetOpt d k = some v := by
  induction d with
  | nil => exact absurd hne.symm hv
  | cons kv₀ rest ih =>
    obtain ⟨k₀, v₀⟩ := kv₀
    by_cases h : k₀ = k
    · simp only [dictGetD, if_pos h] at hne
      simp [dictGetOpt, h, hne]
    · simp only [dictGetD, if_neg h] at hne
      simpa [dictGetOpt, h] using ih hne

theorem dictGetD_eq_of_getOpt (d : Stock) (k : String) (v dflt : Py)
    (h : dictGetOpt d k = some v) : dictGetD d k dflt = v := by
  induction d with
  | nil => simp [dictGetOpt] at h
  | cons kv₀ rest ih =>
    obtain ⟨k₀, v₀⟩ := kv₀
    by_cases h₀ : k₀ = k
    · simp only [dictGetOpt, if_pos h₀, Option.some.injEq] at h
      simp [dictGetD, h₀, h]
    · simp only [dictGetOpt, if_neg h₀] at h
      simpa [dictGetD, h₀] using ih h

theorem mem_dictDel_ne (d : Stock) (k : String) (kv : String × Py)
    (h : kv ∈ dictDel d k) : kv.1 ≠ k := by
  rw [dictDel, List.mem_filter] at h
  simpa using h.2

theorem dictGetD_eq_of_mem_nodup (d : Stock) (hnd : nodupKeys d) (k : String) (v : Py)
    (hmem : (k, v) ∈ d) (dflt : Py) : dictGetD d k dflt = v := by
  induction d with
  | nil => simp at hmem
  | cons kv₀ rest ih =>
    obtain ⟨k₀, v₀⟩ := kv₀
    rw [nodupKeys, List.map_cons, List.nodup_cons] at hnd
    rcases List.mem_cons.mp hmem with h₁ | h₁
    · obtain ⟨hk, hv⟩ := Prod.mk.injEq .. ▸ h₁
      simp [dictGetD, hk, hv]
    · by_cases h₀ : k₀ = k
      · exact absurd (by rw [h₀]; exact List.mem_map.mpr ⟨(k, v), h₁, rfl⟩) hnd.1
      · simpa [dictGetD, h₀] using ih hnd.2 h₁

theorem dictSet_append_of_not_mem (d : Stock) (k : String) (v : Py)
    (h : k ∉ dictKeys d) : dictSet d k v = d ++ [(k, v)] := by
  induction d with
  | nil => simp [dictSet]
  | cons kv rest ih =>
    have h₁ : kv.1 ≠ k := fun he => h (by simp [dictKeys, he])
    have h₂ : k ∉ dictKeys rest := fun he => h (by simp [dictKeys] at he ⊢; exact Or.inr he)
    obtain ⟨k₀, v₀⟩ := kv
    simp only [dictSet, if_neg h₁, List.cons_append, List.cons.injEq, true_and]
    exact ih h₂

theorem foldl_dictSet_eq_append (d : Stock) :
    ∀ acc : Stock, nodupKeys d → (∀ k ∈ dictKeys d, k ∉ dictKeys acc) →
      d.foldl (fun st kv => dictSet st kv.1 kv.2) acc = acc ++ d := by
  induction d with
  | nil => intro acc _ _; simp
  | cons kv rest ih =>
    intro acc hnd hdisj
    rw [nodupKeys, List.map_cons, List.nodup_cons] at hnd
    have hk : kv.1 ∉ dictKeys acc := hdisj kv.1 (by simp [dictKeys])
    have hdisj' : ∀ k ∈ dictKeys rest, k ∉ dictKeys (acc ++ [kv]) := by
      intro k hkrest
      have hne : k ≠ kv.1 := fun he => hnd.1 (he ▸ hkrest)
      have hnacc : k ∉ dictKeys acc := hdisj k (by simp [dictKeys] at hkrest ⊢; exact Or.inr hkrest)
      simp [dictKeys, List.map_append] at hnacc ⊢
      exact ⟨by simpa [dictKeys] using hnacc, hne⟩
    rw [List.foldl_cons, dictSet_append_of_not_mem acc kv.1 kv.2 hk]
    have := ih (acc ++ [kv]) hnd.2 hdisj'
    simpa using this

theorem dictFromPairs_eq_self (d : Stock) (hnd : nodupKeys d) : dictFromPairs d = d := by
  have := foldl_dictSet_eq_append d [] hnd (by simp [dictKeys])
  simpa [dictFromPairs] using this

theorem pyLtInt_of_isInt (v : Py) (t : Int) (h : pyIsInt v = true) :
    pyLtInt v t = some (decide (pyToInt v < t)) := by
  cases v <;> simp_all [pyIsInt, pyLtInt, pyToInt]

theorem checkLowAux_subset (full : Stock) (t : Int) :
    ∀ (ks : List String) (l : List String), checkLowAux full t ks = some l → ∀ x ∈ l, x ∈ ks := by
  intro ks
  induction ks with
  | nil =>
    intro l h x hx
    simp only [checkLowAux, Option.some.injEq] at h
    subst h
    simp at hx
  | cons k ks ih =>
    intro l h x hx
    simp only [checkLowAux] at h
    rcases hlt : pyLtInt (dictGetD full k (.int 0)) t with _ | b
    · rw [hlt] at h; exact absurd h (by simp)
    · rw [hlt] at h
      rcases hrec : checkLowAux full t ks with _ | rest
      · rw [hrec] at h; exact absurd h (by simp)
      · rw [hrec] at h
        have hl : l = if b then k :: rest else rest := by
          cases b <;> simpa using h.symm
        subst hl
        cases b with
        | false => exact List.mem_cons_of_mem _ (ih rest hrec x hx)
        | true =>
          rcases List.mem_cons.mp hx with h₁ | h₁
          · exact h₁ ▸ List.mem_cons_self _ _
          · exact List.mem_cons_of_mem _ (ih rest hrec x h₁)

/-! ### Reduction lemmas for the operations on validated arguments -/

theorem add_item_valid (now : String) (s : String) (q : Int) (logs : List String)
    (stock : Stock) (hs : s ≠ "") (hq : 0 ≤ q) (m : Int)
    (hget : dictGetD stock s (Py.int 0) = Py.int m) :
    add_item now (Py.str s) (Py.int q) logs stock =
      ⟨dictSet stock s (Py.int (m + q)),
       logs ++ [now ++ ": Added " ++ pyStr (Py.int q) ++ " of " ++ s], [], false⟩ := by
  have hempty : s.isEmpty = false := by
    rw [Bool.eq_false_iff]
    intro h
    exact hs ((String.isEmpty_iff s).mp h)
  simp [add_item, pyIsStr, pyIsInt, pyToInt, not_lt.mpr hq, hempty, hget, pyAddInt]

theorem remove_item_valid (s : String) (q : Int) (stock : Stock) (hq : 0 < q)
    (m : Int) (hget : dictGetOpt stock s = some (Py.int m)) :
    remove_item (Py.str s) (Py.int q) stock =
      if m - q ≤ 0 then ⟨dictDel (dictSet stock s (Py.int (m - q))) s, [], false⟩
      else ⟨dictSet stock s (Py.int (m - q)), [], false⟩ := by
  simp [remove_item, pyIsStr, pyIsInt, pyToInt, not_le.mpr hq, hget, pySubInt]

theorem remove_item_absent (s : String) (q : Int) (stock : Stock) (hq : 0 < q)
    (hget : dictGetOpt stock s = Option.none) :
    remove_item (Py.str s) (Py.int q) stock =
      ⟨stock, [.warning "remove_item: item not found in stock."], false⟩ := by
  simp [remove_item, pyIsStr, pyIsInt, pyToInt, not_le.mpr hq, hget]

theorem get_qty_str (s : String) (stock : Stock) :
    get_qty (Py.str s) stock = (dictGetD stock s (Py.int 0), []) := rfl

/-! ### Preservation of the non-negativity invariant -/

theorem nonnegInvariant_getD (stock : Stock) (h : nonnegInvariant stock) (k : String) :
    ∃ n : Int, dictGetD stock k (Py.int 0) = Py.int n ∧ 0 ≤ n := by
  rcases dictGetD_cases stock k (Py.int 0) with h₁ | ⟨kv, hkv, _, hsnd⟩
  · exact ⟨0, h₁, le_refl 0⟩
  · obtain ⟨n, hn, hpos⟩ := h kv hkv
    exact ⟨n, by rw [← hsnd, hn], hpos⟩

theorem nonnegInvariant_set (stock : Stock) (h : nonnegInvariant stock) (k : String)
    (n : Int) (hn : 0 ≤ n) : nonnegInvariant (dictSet stock k (Py.int n)) := by
  intro kv hkv
  rcases mem_dictSet _ _ _ _ hkv with h₁ | h₁
  · exact ⟨n, by rw [h₁], hn⟩
  · exact h kv h₁

theorem nonnegInvariant_applyOp (stock : Stock) (h : nonnegInvariant stock) (op : Op) :
    nonnegInvariant (applyOp stock op) := by
  cases op with
  | add item qty =>
    show nonnegInvariant (add_item "" item qty [] stock).stock
    unfold add_item
    split
    · exact h
    split
    · exact h
    split
    · exact h
    split
    · split
      · exact h
      · rcases heq : pyAddInt (dictGetD stock _ (.int 0)) (pyToInt qty) with _ | n
        · simp only [heq]
          exact h
        · simp only [heq]
          obtain ⟨m, hm, hmpos⟩ := nonnegInvariant_getD stock h _
          rw [hm] at heq
          simp only [pyAddInt, Option.some.injEq] at heq
          have hq : ¬ pyToInt qty < 0 := by assumption
          exact nonnegInvariant_set stock h _ n (by omega)
    · exact h
  | remove item qty =>
    show nonnegInvariant (remove_item item qty stock).stock
    unfold remove_item
    split
    · exact h
    split
    · exact h
    split
    · exact h
    split
    · rcases hopt : dictGetOpt stock _ with _ | v
      · simp only [hopt]
        exact h
      · simp only [hopt]
        rcases hsub : pySubInt v (pyToInt qty) with _ | n
        · simp only [hsub]
          exact h
        · simp only [hsub]
          split
          · intro kv hkv
            have hne := mem_dictDel_ne _ _ _ hkv
            rcases mem_dictSet _ _ _ _ (mem_dictDel _ _ _ hkv) with h₁ | h₁
            · exact absurd (by rw [h₁]) hne
            · exact h kv h₁
          · have hpos : ¬ n ≤ 0 := by assumption
            exact nonnegInvariant_set stock h _ n (by omega)
    · exact h

/-! ### Claims -/

/-- C1, counterexample: the claimed invariant "no entry has quantity ≤ 0"
fails on the code.  `add_item` accepts `qty = 0` (validation only rejects
negative quantities), so `add_item("a", 0)` on the empty inventory stores
`stock_data["a"] = 0`, an entry with quantity ≤ 0 that is retained. -/
theorem C1_counterexample :
    runOps [Op.add (Py.str "a") (Py.int 0)] = [("a", Py.int 0)] ∧
    ¬ strictInvariant (runOps [Op.add (Py.str "a") (Py.int 0)]) := by
  have hrun : runOps [Op.add (Py.str "a") (Py.int 0)] = [("a", Py.int 0)] := rfl
  refine ⟨hrun, ?_⟩
  intro h
  rw [hrun] at h
  obtain ⟨n, hn, hpos⟩ := h ("a", Py.int 0) (List.mem_singleton.mpr rfl)
  injection hn with hn0
  omega

/-- C1, amended: through every sequence of add and remove operations from
the empty inventory, every entry's quantity is a non-negative integer
(never negative, but possibly exactly 0, created by an add of quantity 0);
and a remove that takes a quantity to zero or below deletes the entry, so
its key is gone from the mapping. -/
theorem C1_amended_invariant :
    (∀ ops : List Op, nonnegInvariant (runOps ops)) ∧
    (∀ (stock : Stock) (s : String) (m q : Int),
      dictGetOpt stock s = some (Py.int m) → 0 < q → m - q ≤ 0 →
      s ∉ dictKeys ((remove_item (Py.str s) (Py.int q) stock).stock)) := by
  constructor
  · intro ops
    have main : ∀ stock : Stock, nonnegInvariant stock →
        nonnegInvariant (ops.foldl applyOp stock) := by
      induction ops with
      | nil => exact fun stock h => h
      | cons op rest ih =>
        intro stock h
        rw [List.foldl_cons]
        exact ih _ (nonnegInvariant_applyOp stock h op)
    exact main [] (fun kv hkv => absurd hkv (List.not_mem_nil kv))
  · intro stock s m q hget hq hle
    rw [remove_item_valid s q stock hq m hget, if_pos hle]
    exact not_mem_keys_del _ s

/-- C1, witness for the amended statement at concrete inputs. -/
theorem C1_amended_invariant_witness :
    nonnegInvariant (runOps [Op.add (Py.str "a") (Py.int 3), Op.remove (Py.str "a") (Py.int 1)]) ∧
    "a" ∉ dictKeys ((remove_item (Py.str "a") (Py.int 5) [("a", Py.int 3)]).stock) :=
  ⟨C1_amended_invariant.1 _,
   C1_amended_invariant.2 [("a", Py.int 3)] "a" 3 5 rfl (by decide) (by decide)⟩

/-- C2: saving the inventory and loading the resulting untouched file
restores a dictionary equal to the one before the save, with no error or
warning reported. -/
theorem C2_save_load_roundtrip (stock : Stock) (hnd : nodupKeys stock) (prev : FileState) :
    load_data (save_data true prev stock).file stock =
      ⟨stock, [], false⟩ := by
  show load_data (FileState.content (Py.dict stock)) stock = _
  simp only [load_data]
  rw [dictFromPairs_eq_self stock hnd]

/-- C2, witness at a concrete two-item inventory. -/
theorem C2_save_load_roundtrip_witness :
    load_data (save_data true FileState.missing [("a", Py.int 1), ("b", Py.int 2)]).file
        [("a", Py.int 1), ("b", Py.int 2)] =
      ⟨[("a", Py.int 1), ("b", Py.int 2)], [], false⟩ :=
  C2_save_load_roundtrip [("a", Py.int 1), ("b", Py.int 2)]
    (by unfold nodupKeys; decide) FileState.missing

/-- C3: a sequence of `add(item, q)` calls for a non-empty item and
non-negative quantities, followed by `get_qty(item)`, yields the sum of
the added quantities plus the quantity stored before the sequence (the
`.get` default 0 when the item was absent). -/
theorem C3_adds_accumulate (s : String) (hs : s ≠ "") (qs : List Int)
    (hqs : ∀ q ∈ qs, 0 ≤ q) (stock : Stock) (m : Int)
    (h0 : dictGetD stock s (Py.int 0) = Py.int m) :
    (get_qty (Py.str s) (addSeq s qs stock)).1 = Py.int (m + qs.sum) := by
  have main : ∀ (qs : List Int), (∀ q ∈ qs, 0 ≤ q) → ∀ (stock : Stock) (m : Int),
      dictGetD stock s (Py.int 0) = Py.int m →
      dictGetD (addSeq s qs stock) s (Py.int 0) = Py.int (m + qs.sum) := by
    intro qs
    induction qs with
    | nil =>
      intro _ stock m h0
      simpa [addSeq] using h0
    | cons q rest ih =>
      intro hq stock m h0
      have h1 : dictGetD (add_item "" (Py.str s) (Py.int q) [] stock).stock s (Py.int 0) =
          Py.int (m + q) := by
        rw [add_item_valid "" s q [] stock hs (hq q (by simp)) m h0]
        exact dictGetD_set_self stock s _ _
      have h2 := ih (fun q hq' => hq q (by simp [hq'])) _ _ h1
      rw [addSeq, List.foldl_cons]
      rw [addSeq] at h2
      rw [h2, List.sum_cons]
      ring_nf
  rw [get_qty_str, main qs hqs stock m h0]

/-- C3, witness: two adds of 2 and 3 onto a stored quantity of 5 give 10. -/
theorem C3_adds_accumulate_witness :
    (get_qty (Py.str "a") (addSeq "a" [2, 3] [("a", Py.int 5)])).1 = Py.int 10 := by
  have h := C3_adds_accumulate "a" (by decide) [2, 3] (by decide) [("a", Py.int 5)] 5 rfl
  simpa using h

/-- C4: a load whose file is missing, undecodable, or decodes to a
non-dict top-level value leaves the in-memory dictionary unchanged (and
raises nothing). -/
theorem C4_failed_load_preserves (f : FileState) (stock : Stock)
    (h : topLevelDict f = false) :
    (load_data f stock).stock = stock ∧ (load_data f stock).raised = false := by
  cases f with
  | missing => exact ⟨rfl, rfl⟩
  | invalid => exact ⟨rfl, rfl⟩
  | content j => cases j <;> first | exact ⟨rfl, rfl⟩ | simp [topLevelDict] at h

/-- C4, witness: loading a file holding a top-level JSON list keeps the
inventory. -/
theorem C4_failed_load_preserves_witness :
    (load_data (FileState.content (Py.list [Py.int 1])) [("a", Py.int 7)]).stock =
        [("a", Py.int 7)] ∧
      (load_data (FileState.content (Py.list [Py.int 1])) [("a", Py.int 7)]).raised = false :=
  C4_failed_load_preserves (FileState.content (Py.list [Py.int 1])) [("a", Py.int 7)] rfl

theorem mem_print_data_keys (stock : Stock) (p : String × Py) (hp : p ∈ print_data stock) :
    p.1 ∈ dictKeys stock := by
  simp only [print_data, List.mem_map] at hp
  obtain ⟨kv, hkv, hpe⟩ := hp
  rw [← hpe]
  exact List.mem_map.mpr ⟨kv, hkv, rfl⟩

theorem pyIsInt_of_neg (qty : Py) (h : pyToInt qty < 0) : pyIsInt qty = true := by
  cases qty <;> simp_all [pyIsInt, pyToInt]

theorem dictGetOpt_eq_none (d : Stock) (k : String) (h : k ∉ dictKeys d) :
    dictGetOpt d k = Option.none := by
  induction d with
  | nil => rfl
  | cons kv rest ih =>
    have h₁ : kv.1 ≠ k := fun he => h (by simp [dictKeys, he])
    have h₂ : k ∉ dictKeys rest := fun he => h (by simp [dictKeys] at he ⊢; exact Or.inr he)
    obtain ⟨k₀, v₀⟩ := kv
    simpa [dictGetOpt, h₁] using ih h₂

/-- C5: removing at least the current quantity of a present item deletes
the entry: `get_qty` then returns 0, and the key appears neither in
`check_low_items` (for any threshold) nor among the pairs `print_data`
reports. -/
theorem C5_remove_at_least_deletes (stock : Stock) (s : String) (m q : Int)
    (hget : dictGetOpt stock s = some (Py.int m)) (hq : 0 < q) (hge : m ≤ q) :
    (get_qty (Py.str s) ((remove_item (Py.str s) (Py.int q) stock).stock)).1 = Py.int 0 ∧
    (∀ (t : Int) (l : List String),
      check_low_items t ((remove_item (Py.str s) (Py.int q) stock).stock) = some l → s ∉ l) ∧
    (∀ p ∈ print_data ((remove_item (Py.str s) (Py.int q) stock).stock), p.1 ≠ s) := by
  have hres : (remove_item (Py.str s) (Py.int q) stock).stock =
      dictDel (dictSet stock s (Py.int (m - q))) s := by
    rw [remove_item_valid s q stock hq m hget, if_pos (by omega)]
  have hkeys : s ∉ dictKeys ((remove_item (Py.str s) (Py.int q) stock).stock) := by
    rw [hres]
    exact not_mem_keys_del _ s
  refine ⟨?_, ?_, ?_⟩
  · rw [get_qty_str, hres, dictGetD_del_self]
  · intro t l hl hmem
    simp only [check_low_items] at hl
    exact hkeys (checkLowAux_subset _ t _ l hl s hmem)
  · intro p hp he
    have hm := mem_print_data_keys _ p hp
    rw [he] at hm
    exact hkeys hm

/-- C5, witness: removing 5 of an item stocked at 3 empties its entry. -/
theorem C5_remove_at_least_deletes_witness :
    (get_qty (Py.str "a")
        ((remove_item (Py.str "a") (Py.int 5) [("a", Py.int 3)]).stock)).1 = Py.int 0 :=
  (C5_remove_at_least_deletes [("a", Py.int 3)] "a" 3 5 rfl (by decide) (by decide)).1

/-- C6: `add_item` rejects a non-string item, a non-integer quantity, or a
negative quantity with an error log and no state change (neither the
dictionary nor the caller's log list is touched); `remove_item` rejects
the same plus a quantity of zero, likewise with an error log and no state
change. -/
theorem C6_validation_rejects :
    (∀ (now : String) (item qty : Py) (logs : List String) (stock : Stock),
      pyIsStr item = false →
      (add_item now item qty logs stock).stock = stock ∧
      (add_item now item qty logs stock).logs = logs ∧
      (∃ msg, (add_item now item qty logs stock).events = [Event.error msg]) ∧
      (add_item now item qty logs stock).raised = false) ∧
    (∀ (now : String) (item qty : Py) (logs : List String) (stock : Stock),
      pyIsInt qty = false ∨ pyToInt qty < 0 →
      (add_item now item qty logs stock).stock = stock ∧
      (add_item now item qty logs stock).logs = logs ∧
      (∃ msg, (add_item now item qty logs stock).events = [Event.error msg]) ∧
      (add_item now item qty logs stock).raised = false) ∧
    (∀ (item qty : Py) (stock : Stock),
      pyIsStr item = false ∨ pyIsInt qty = false ∨ pyToInt qty ≤ 0 →
      (remove_item item qty stock).stock = stock ∧
      (∃ msg, (remove_item item qty stock).events = [Event.error msg]) ∧
      (remove_item item qty stock).raised = false) := by
  refine ⟨fun now item qty logs stock h => ?_,
          fun now item qty logs stock h => ?_,
          fun item qty stock h => ?_⟩
  · simp [add_item, h]
  · by_cases hi : pyIsStr item
    · rcases h with hqe | hneg
      · simp [add_item, hi, hqe]
      · have hqi := pyIsInt_of_neg qty hneg
        simp [add_item, hi, hqi, hneg]
    · have hif : pyIsStr item = false := by simpa using hi
      simp [add_item, hif]
  · by_cases hi : pyIsStr item
    · rcases h with hif | hqe | hle
      · rw [hi] at hif
        exact absurd hif (by simp)
      · simp [remove_item, hi, hqe]
      · by_cases hqi : pyIsInt qty
        · simp [remove_item, hi, hqi, hle]
        · have hqif : pyIsInt qty = false := by simpa using hqi
          simp [remove_item, hi, hqif]
    · have hif : pyIsStr item = false := by simpa using hi
      simp [remove_item, hif]

/-- C6, witness: an integer item, a string quantity, and a zero quantity
are each rejected at concrete inputs. -/
theorem C6_validation_rejects_witness :
    (add_item "t" (Py.int 1) (Py.int 2) [] [("a", Py.int 7)]).stock = [("a", Py.int 7)] ∧
    (add_item "t" (Py.str "a") (Py.str "x") [] [("a", Py.int 7)]).logs = [] ∧
    (remove_item (Py.str "a") (Py.int 0) [("a", Py.int 7)]).stock = [("a", Py.int 7)] :=
  ⟨(C6_validation_rejects.1 "t" (Py.int 1) (Py.int 2) [] [("a", Py.int 7)] rfl).1,
   (C6_validation_rejects.2.1 "t" (Py.str "a") (Py.str "x") [] [("a", Py.int 7)]
      (Or.inl rfl)).2.1,
   (C6_validation_rejects.2.2 (Py.str "a") (Py.int 0) [("a", Py.int 7)]
      (Or.inr (Or.inr (by decide)))).1⟩

/-- C7: removing an item that is not in the dictionary (with a string item
and a positive integer quantity, so validation passes) is a no-op: the
dictionary is unchanged and the only logging call is a warning; the
`KeyError` is caught, so nothing escapes. -/
theorem C7_remove_absent_noop (s : String) (q : Int) (hq : 0 < q) (stock : Stock)
    (habs : s ∉ dictKeys stock) :
    remove_item (Py.str s) (Py.int q) stock =
      ⟨stock, [Event.warning "remove_item: item not found in stock."], false⟩ :=
  remove_item_absent s q stock hq (dictGetOpt_eq_none stock s habs)

/-- C7, witness: removing a missing item from a one-item inventory. -/
theorem C7_remove_absent_noop_witness :
    remove_item (Py.str "b") (Py.int 2) [("a", Py.int 7)] =
      ⟨[("a", Py.int 7)], [Event.warning "remove_item: item not found in stock."], false⟩ :=
  C7_remove_absent_noop "b" 2 (by decide) [("a", Py.int 7)] (by unfold dictKeys; decide)

theorem isEmpty_false_of_ne (s : String) (hs : s ≠ "") : s.isEmpty = false := by
  rw [Bool.eq_false_iff]
  intro h
  exact hs ((String.isEmpty_iff s).mp h)

theorem checkLowAux_eq (stock : Stock) (hnd : nodupKeys stock) (t : Int) :
    ∀ l : Stock, (∀ kv ∈ l, kv ∈ stock) → (∀ kv ∈ l, pyIsInt kv.2 = true) →
      checkLowAux stock t (l.map Prod.fst) =
        some ((l.filter (fun kv => decide (pyToInt kv.2 < t))).map Prod.fst) := by
  intro l
  induction l with
  | nil => intro _ _; rfl
  | cons kv rest ih =>
    intro hmem hint
    obtain ⟨k, v⟩ := kv
    have hv : dictGetD stock k (Py.int 0) = v :=
      dictGetD_eq_of_mem_nodup stock hnd k v (hmem (k, v) (by simp)) _
    have hlt : pyLtInt v t = some (decide (pyToInt v < t)) :=
      pyLtInt_of_isInt v t (hint (k, v) (by simp))
    have hrest := ih (fun kv h => hmem kv (by simp [h])) (fun kv h => hint kv (by simp [h]))
    simp only [List.map_cons, checkLowAux, hv, hlt, hrest, List.filter_cons]
    by_cases hb : pyToInt v < t
    · simp [hb]
    · simp [hb]

/-- C8: on a dictionary whose stored values are int-like (every state the
operations build), `check_low_items` returns exactly the names of the
entries with quantity strictly below the threshold, in the dictionary's
iteration (insertion) order; being a pure function of the dictionary, it
modifies nothing. -/
theorem C8_low_stock_exact (t : Int) (stock : Stock) (hnd : nodupKeys stock)
    (hint : ∀ kv ∈ stock, pyIsInt kv.2 = true) :
    check_low_items t stock =
      some ((stock.filter (fun kv => decide (pyToInt kv.2 < t))).map Prod.fst) := by
  simp only [check_low_items, dictKeys]
  exact checkLowAux_eq stock hnd t stock (fun kv h => h) hint

/-- C8, witness: with the default threshold 5, only the item stocked at 2
is low. -/
theorem C8_low_stock_exact_witness :
    check_low_items 5 [("a", Py.int 7), ("b", Py.int 2)] = some ["b"] := by
  have h := C8_low_stock_exact 5 [("a", Py.int 7), ("b", Py.int 2)]
    (by unfold nodupKeys; decide) (by decide)
  simpa [pyToInt] using h

/-- C9: adding with the empty string as item (and a valid non-negative
int-like quantity) is a silent no-op: the dictionary is unchanged, no
logging call is made, and nothing is appended to the caller's log list. -/
theorem C9_empty_item_noop (now : String) (qty : Py) (logs : List String) (stock : Stock)
    (hint : pyIsInt qty = true) (hnn : 0 ≤ pyToInt qty) :
    add_item now (Py.str "") qty logs stock = ⟨stock, logs, [], false⟩ := by
  have he : ("" : String).isEmpty = true := rfl
  simp [add_item, pyIsStr, hint, not_lt.mpr hnn, he]

/-- C9, witness: adding 4 of the empty-named item changes nothing. -/
theorem C9_empty_item_noop_witness :
    add_item "t" (Py.str "") (Py.int 4) ["old"] [("a", Py.int 7)] =
      ⟨[("a", Py.int 7)], ["old"], [], false⟩ :=
  C9_empty_item_noop "t" (Py.int 4) ["old"] [("a", Py.int 7)] rfl (by decide)

/-- C10: a Python `bool` passes the `isinstance(qty, int)` validation of
both operations.  `add_item(item, True)` increments the stored quantity by
1 and appends a log entry formatting the quantity as `True`;
`add_item(item, False)` adds 0; `remove_item(item, True)` subtracts 1
(deleting the entry if the result is ≤ 0).  None of these log an error. -/
theorem C10_bool_qty_accepted :
    (∀ (now : String) (s : String) (logs : List String) (stock : Stock) (n : Int),
      s ≠ "" → dictGetD stock s (Py.int 0) = Py.int n →
      add_item now (Py.str s) (Py.bool true) logs stock =
        ⟨dictSet stock s (Py.int (n + 1)),
         logs ++ [now ++ ": Added " ++ pyStr (Py.bool true) ++ " of " ++ s], [], false⟩) ∧
    (∀ (now : String) (s : String) (logs : List String) (stock : Stock) (n : Int),
      s ≠ "" → dictGetD stock s (Py.int 0) = Py.int n →
      add_item now (Py.str s) (Py.bool false) logs stock =
        ⟨dictSet stock s (Py.int (n + 0)),
         logs ++ [now ++ ": Added " ++ pyStr (Py.bool false) ++ " of " ++ s], [], false⟩) ∧
    (∀ (s : String) (stock : Stock) (m : Int),
      dictGetOpt stock s = some (Py.int m) →
      remove_item (Py.str s) (Py.bool true) stock =
        if m - 1 ≤ 0 then ⟨dictDel (dictSet stock s (Py.int (m - 1))) s, [], false⟩
        else ⟨dictSet stock s (Py.int (m - 1)), [], false⟩) := by
  refine ⟨fun now s logs stock n hs h0 => ?_, fun now s logs stock n hs h0 => ?_,
          fun s stock m hm => ?_⟩
  · simp [add_item, pyIsStr, pyIsInt, pyToInt, isEmpty_false_of_ne s hs, h0, pyAddInt]
  · simp [add_item, pyIsStr, pyIsInt, pyToInt, isEmpty_false_of_ne s hs, h0, pyAddInt]
  · simp [remove_item, pyIsStr, pyIsInt, pyToInt, hm, pySubInt]

/-- C10, witness: `True` adds 1 to a quantity of 5. -/
theorem C10_bool_qty_accepted_witness :
    add_item "t" (Py.str "a") (Py.bool true) [] [("a", Py.int 5)] =
      ⟨[("a", Py.int 6)],
       ["t" ++ ": Added " ++ pyStr (Py.bool true) ++ " of " ++ "a"], [], false⟩ := by
  have h := C10_bool_qty_accepted.1 "t" "a" [] [("a", Py.int 5)] 5 (by decide) rfl
  simpa [dictSet] using h

end InventorySystem
